import Mathlib

/-
Verification of the CacheManager component of sleeper-mcp-server
(src/sleeper_mcp_server/cache.py), shallowly embedded in Lean 4.

Modelling conventions:
- Wall-clock timestamps (Python `time.time()` floats) are rationals ℚ;
  every operation that reads the clock takes an explicit `now : ℚ`.
- TTL values are integers (Python ints), coerced to ℚ for arithmetic.
- The Python dict `self._cache` is an association list
  `List (String × CacheEntry V)`; reachable states keep keys distinct
  (insertion replaces in place), mirrored here by `dictSet`/`dictDel`.
- The lock is irrelevant for sequential functional claims and is dropped;
  each method is a pure function from state (plus inputs) to
  result × state.
-/

namespace SleeperCache

/-- The five cached data categories of `CacheDataType` in cache.py. -/
inductive CacheDataType where
  | PLAYER_DATA
  | LEAGUE_SETTINGS
  | MATCHUP_DATA
  | TRENDING_PLAYERS
  | ROSTER_DATA
deriving DecidableEq, Repr

/-- `CacheEntry`: payload, absolute expiration, creation time, category. -/
structure CacheEntry (V : Type) where
  data : V
  expires_at : ℚ
  created_at : ℚ
  data_type : CacheDataType
deriving DecidableEq, Repr

/-- `CacheEntry.is_expired`: `time.time() > self.expires_at`. -/
def CacheEntry.is_expired {V : Type} (e : CacheEntry V) (now : ℚ) : Bool :=
  now > e.expires_at

/-- The four counters of `self._stats`. -/
structure Stats where
  hits : Nat
  misses : Nat
  evictions : Nat
  invalidations : Nat
deriving DecidableEq, Repr

/-- Python dict lookup `self._cache.get(key)` on the association list. -/
def dictGet {V : Type} : List (String × CacheEntry V) → String → Option (CacheEntry V)
  | [], _ => none
  | (k, e) :: rest, key => if k = key then some e else dictGet rest key

/-- Python dict assignment `self._cache[key] = entry`: replace in place if
the key is present, append otherwise. -/
def dictSet {V : Type} : List (String × CacheEntry V) → String → CacheEntry V →
    List (String × CacheEntry V)
  | [], key, e => [(key, e)]
  | (k, e0) :: rest, key, e =>
      if k = key then (key, e) :: rest else (k, e0) :: dictSet rest key e

/-- Python dict deletion `del self._cache[key]`: remove the (first) binding
of the key. -/
def dictDel {V : Type} : List (String × CacheEntry V) → String →
    List (String × CacheEntry V)
  | [], _ => []
  | (k, e) :: rest, key => if k = key then rest else (k, e) :: dictDel rest key

/-- Python substring test `pattern in key`. -/
def strContains (key sub : String) : Bool :=
  decide (sub.toList <:+: key.toList)

/-- `CacheManager.DEFAULT_TTL_CONFIG` from cache.py. -/
def DEFAULT_TTL_CONFIG : CacheDataType → Int
  | .PLAYER_DATA => 3600
  | .LEAGUE_SETTINGS => 86400
  | .MATCHUP_DATA => 3600
  | .TRENDING_PLAYERS => 1800
  | .ROSTER_DATA => 900

/-- The mutable state of a `CacheManager`: the store, the merged TTL
configuration, and the stats counters. -/
structure CacheManager (V : Type) where
  cache : List (String × CacheEntry V)
  ttl_config : CacheDataType → Int
  stats : Stats

/-- `CacheManager.__init__`: empty store, zeroed counters, and
`self._ttl_config = {**DEFAULT_TTL_CONFIG}` updated with the supplied
overrides (an override mapping sending each category to `some ttl` when
overridden, `none` otherwise). -/
def CacheManager.init (V : Type) (ttl_config : CacheDataType → Option Int) :
    CacheManager V :=
  { cache := []
    ttl_config := fun dt => (ttl_config dt).getD (DEFAULT_TTL_CONFIG dt)
    stats := ⟨0, 0, 0, 0⟩ }

set_option linter.unusedVariables false in
/-- `CacheManager.get`: look up the key; on absence record a miss; on an
expired entry delete it and record an eviction and a miss; otherwise record
a hit and return the payload. The category argument is carried but, as in
the source, only ever used for logging. -/
def CacheManager.get {V : Type} (m : CacheManager V) (key : String)
    (data_type : CacheDataType) (now : ℚ) : Option V × CacheManager V :=
  match dictGet m.cache key with
  | none =>
      (none, { m with stats := { m.stats with misses := m.stats.misses + 1 } })
  | some entry =>
      if entry.is_expired now then
        (none,
         { m with
             cache := dictDel m.cache key
             stats := { m.stats with
                          evictions := m.stats.evictions + 1
                          misses := m.stats.misses + 1 } })
      else
        (some entry.data,
         { m with stats := { m.stats with hits := m.stats.hits + 1 } })

/-- `CacheManager.set`: ttl = override if given else the configured TTL of
the category; expiration = now + ttl; store the new entry at the key. -/
def CacheManager.set {V : Type} (m : CacheManager V) (key : String) (data : V)
    (data_type : CacheDataType) (ttl_override : Option Int) (now : ℚ) :
    CacheManager V :=
  let ttl : Int :=
    match ttl_override with
    | some t => t
    | none => m.ttl_config data_type
  let expires_at : ℚ := now + (ttl : ℚ)
  let entry : CacheEntry V :=
    { data := data, expires_at := expires_at, created_at := now,
      data_type := data_type }
  { m with cache := dictSet m.cache key entry }

/-- `CacheManager.invalidate`: delete the key if present, count an
invalidation, return whether a removal occurred. -/
def CacheManager.invalidate {V : Type} (m : CacheManager V) (key : String) :
    Bool × CacheManager V :=
  match dictGet m.cache key with
  | some _ =>
      (true,
       { m with
           cache := dictDel m.cache key
           stats := { m.stats with
                        invalidations := m.stats.invalidations + 1 } })
  | none => (false, m)

/-- `CacheManager.invalidate_by_pattern`: collect the keys containing the
pattern as a substring, delete each, count each as an invalidation, return
how many were removed. -/
def CacheManager.invalidate_by_pattern {V : Type} (m : CacheManager V)
    (pat : String) : Nat × CacheManager V :=
  let keys_to_remove :=
    (m.cache.filter (fun p => strContains p.1 pat)).map Prod.fst
  (keys_to_remove.length,
   { m with
       cache := keys_to_remove.foldl dictDel m.cache
       stats := { m.stats with
                    invalidations :=
                      m.stats.invalidations + keys_to_remove.length } })

/-- `CacheManager.cleanup_expired`: collect the keys whose entry satisfies
`entry.expires_at <= current_time`, delete each, count each as an eviction,
return how many were removed. -/
def CacheManager.cleanup_expired {V : Type} (m : CacheManager V) (now : ℚ) :
    Nat × CacheManager V :=
  let keys_to_remove :=
    (m.cache.filter (fun p => decide (p.2.expires_at ≤ now))).map Prod.fst
  (keys_to_remove.length,
   { m with
       cache := keys_to_remove.foldl dictDel m.cache
       stats := { m.stats with
                    evictions := m.stats.evictions + keys_to_remove.length } })

/-- Round-half-to-even to an integer, the rounding used by Python `round`. -/
def roundHalfEven (q : ℚ) : Int :=
  let f : Int := ⌊q⌋
  if q - f < 1/2 then f
  else if 1/2 < q - f then f + 1
  else if f % 2 = 0 then f else f + 1

/-- Python `round(x, 2)` on the rational model of the float. -/
def pyRound2 (q : ℚ) : ℚ :=
  (roundHalfEven (q * 100) : ℚ) / 100

/-- The dictionary returned by `CacheManager.get_stats`. -/
structure StatsResult where
  hits : Nat
  misses : Nat
  hit_rate_percent : ℚ
  evictions : Nat
  invalidations : Nat
  total_entries : Nat
  total_requests : Nat
deriving DecidableEq, Repr

/-- `CacheManager.get_stats`: total_requests = hits + misses; hit rate is
hits / total_requests * 100 when total_requests > 0 else 0, rounded to two
decimals. -/
def CacheManager.get_stats {V : Type} (m : CacheManager V) : StatsResult :=
  let total_requests := m.stats.hits + m.stats.misses
  let hit_rate : ℚ :=
    if 0 < total_requests then
      (m.stats.hits : ℚ) / (total_requests : ℚ) * 100
    else 0
  { hits := m.stats.hits
    misses := m.stats.misses
    hit_rate_percent := pyRound2 hit_rate
    evictions := m.stats.evictions
    invalidations := m.stats.invalidations
    total_entries := m.cache.length
    total_requests := total_requests }

/-! ## Association-list lemmas for the store -/

theorem dictGet_dictSet_self {V : Type} (c : List (String × CacheEntry V))
    (k : String) (e : CacheEntry V) : dictGet (dictSet c k e) k = some e := by
  induction c with
  | nil => simp [dictSet, dictGet]
  | cons p rest ih =>
      obtain ⟨k', e'⟩ := p
      by_cases h : k' = k <;> simp [dictSet, dictGet, h, ih]

theorem dictGet_dictSet_ne {V : Type} (c : List (String × CacheEntry V))
    (k k' : String) (e : CacheEntry V) (h : k' ≠ k) :
    dictGet (dictSet c k e) k' = dictGet c k' := by
  induction c with
  | nil => simp [dictSet, dictGet, Ne.symm h]
  | cons p rest ih =>
      obtain ⟨k0, e0⟩ := p
      by_cases hk : k0 = k
      · subst hk
        simp [dictSet, dictGet, Ne.symm h]
      · by_cases hk' : k0 = k' <;> simp [dictSet, dictGet, hk, hk', h, ih]

theorem length_dictSet_of_mem {V : Type} (c : List (String × CacheEntry V))
    (k : String) (e e' : CacheEntry V) (h : dictGet c k = some e') :
    (dictSet c k e).length = c.length := by
  induction c with
  | nil => simp [dictGet] at h
  | cons p rest ih =>
      obtain ⟨k0, e0⟩ := p
      by_cases hk : k0 = k
      · simp [dictSet, hk]
      · simp only [dictGet, if_neg hk] at h
        simp [dictSet, hk, ih h]

theorem dictDel_sublist {V : Type} (c : List (String × CacheEntry V))
    (k : String) : (dictDel c k).Sublist c := by
  induction c with
  | nil => simp [dictDel]
  | cons p rest ih =>
      obtain ⟨k0, e0⟩ := p
      by_cases hk : k0 = k
      · simp [dictDel, hk]
      · simpa [dictDel, hk] using ih.cons₂ (k0, e0)

theorem dictGet_eq_none_iff {V : Type} (c : List (String × CacheEntry V))
    (k : String) : dictGet c k = none ↔ k ∉ c.map Prod.fst := by
  induction c with
  | nil => simp [dictGet]
  | cons p rest ih =>
      obtain ⟨k0, e0⟩ := p
      by_cases hk : k0 = k
      · simp [dictGet, hk]
      · simp [dictGet, hk, ih, Ne.symm hk]

theorem dictDel_eq_filter {V : Type} (c : List (String × CacheEntry V))
    (k : String) (hnd : (c.map Prod.fst).Nodup) :
    dictDel c k = c.filter (fun p => decide (p.1 ≠ k)) := by
  induction c with
  | nil => simp [dictDel]
  | cons p rest ih =>
      obtain ⟨k0, e0⟩ := p
      simp only [List.map_cons, List.nodup_cons] at hnd
      by_cases hk : k0 = k
      · subst hk
        have : rest.filter (fun p => !decide (p.1 = k0)) = rest := by
          refine List.filter_eq_self.mpr ?_
          intro a ha
          simp only [Bool.not_eq_true', decide_eq_false_iff_not]
          intro hak
          exact hnd.1 (hak ▸ List.mem_map_of_mem Prod.fst ha)
        simp [dictDel, this]
      · simp [dictDel, hk, ih hnd.2]

theorem dictGet_dictDel_self {V : Type} (c : List (String × CacheEntry V))
    (k : String) (hnd : (c.map Prod.fst).Nodup) :
    dictGet (dictDel c k) k = none := by
  rw [dictDel_eq_filter c k hnd, dictGet_eq_none_iff]
  intro hmem
  obtain ⟨p, hp, hpk⟩ := List.mem_map.mp hmem
  have := (List.mem_filter.mp hp).2
  simp only [decide_eq_true_eq] at this
  exact this hpk

theorem foldl_dictDel_eq_filter {V : Type} (ks : List String)
    (c : List (String × CacheEntry V)) (hnd : (c.map Prod.fst).Nodup) :
    List.foldl dictDel c ks = c.filter (fun p => decide (p.1 ∉ ks)) := by
  induction ks generalizing c with
  | nil => simp
  | cons k ks ih =>
      have hnd' : ((dictDel c k).map Prod.fst).Nodup :=
        ((dictDel_sublist c k).map Prod.fst).nodup hnd
      calc List.foldl dictDel c (k :: ks)
          = List.foldl dictDel (dictDel c k) ks := rfl
        _ = (dictDel c k).filter (fun p => decide (p.1 ∉ ks)) := ih _ hnd'
        _ = (c.filter (fun p => decide (p.1 ≠ k))).filter
              (fun p => decide (p.1 ∉ ks)) := by
              rw [dictDel_eq_filter c k hnd]
        _ = c.filter (fun p => decide (p.1 ∉ k :: ks)) := by
              rw [List.filter_filter]
              refine List.filter_congr ?_
              intro p _
              simp only [List.mem_cons, Bool.and_eq_true, decide_eq_true_eq,
                Bool.decide_and, decide_not]
              by_cases h1 : p.1 = k <;> by_cases h2 : p.1 ∈ ks <;>
                simp [h1, h2]

theorem removeKeys_of_filter_eq {V : Type} (pred : String × CacheEntry V → Bool)
    (c : List (String × CacheEntry V)) (hnd : (c.map Prod.fst).Nodup) :
    List.foldl dictDel c ((c.filter pred).map Prod.fst) =
      c.filter (fun p => !(pred p)) := by
  rw [foldl_dictDel_eq_filter _ _ hnd]
  refine List.filter_congr ?_
  intro p hp
  by_cases hpred : pred p = true
  · have hmem : p.1 ∈ (c.filter pred).map Prod.fst :=
      List.mem_map_of_mem Prod.fst (List.mem_filter.mpr ⟨hp, hpred⟩)
    simp [hmem, hpred]
  · have hmem : p.1 ∉ (c.filter pred).map Prod.fst := by
      intro hmem
      obtain ⟨q, hq, hqk⟩ := List.mem_map.mp hmem
      have hq' := List.mem_filter.mp hq
      have : q = p := List.inj_on_of_nodup_map hnd hq'.1 hp hqk
      rw [this] at hq'
      exact hpred hq'.2
    simp [hmem, hpred]

theorem mem_keys_dictSet {V : Type} (c : List (String × CacheEntry V))
    (k a : String) (e : CacheEntry V) :
    a ∈ (dictSet c k e).map Prod.fst ↔ a ∈ c.map Prod.fst ∨ a = k := by
  induction c with
  | nil => simp [dictSet]
  | cons p rest ih =>
      obtain ⟨k0, e0⟩ := p
      by_cases hk : k0 = k
      · subst hk
        simp [dictSet]
        tauto
      · simp [dictSet, hk, ih]
        tauto

theorem keys_dictSet_nodup {V : Type} (c : List (String × CacheEntry V))
    (k : String) (e : CacheEntry V) (hnd : (c.map Prod.fst).Nodup) :
    ((dictSet c k e).map Prod.fst).Nodup := by
  induction c with
  | nil => simp [dictSet]
  | cons p rest ih =>
      obtain ⟨k0, e0⟩ := p
      simp only [List.map_cons, List.nodup_cons] at hnd
      by_cases hk : k0 = k
      · subst hk
        simpa [dictSet] using hnd
      · simp only [dictSet, if_neg hk, List.map_cons]
        refine List.nodup_cons.mpr ⟨?_, ih hnd.2⟩
        rw [mem_keys_dictSet]
        rintro (hmem | rfl)
        · exact hnd.1 hmem
        · exact hk rfl

/-! ## Characterizations of the cache operations -/

theorem get_of_dictGet_none {V : Type} (m : CacheManager V) (key : String)
    (dt : CacheDataType) (now : ℚ) (he : dictGet m.cache key = none) :
    m.get key dt now =
      (none, { m with stats := { m.stats with misses := m.stats.misses + 1 } }) := by
  simp [CacheManager.get, he]

theorem get_of_live {V : Type} (m : CacheManager V) (key : String)
    (dt : CacheDataType) (now : ℚ) (e : CacheEntry V)
    (he : dictGet m.cache key = some e) (hlive : ¬ now > e.expires_at) :
    m.get key dt now =
      (some e.data,
       { m with stats := { m.stats with hits := m.stats.hits + 1 } }) := by
  simp [CacheManager.get, he, CacheEntry.is_expired, hlive]

theorem get_of_expired {V : Type} (m : CacheManager V) (key : String)
    (dt : CacheDataType) (now : ℚ) (e : CacheEntry V)
    (he : dictGet m.cache key = some e) (hexp : now > e.expires_at) :
    m.get key dt now =
      (none,
       { m with
           cache := dictDel m.cache key
           stats := { m.stats with
                        evictions := m.stats.evictions + 1
                        misses := m.stats.misses + 1 } }) := by
  simp [CacheManager.get, he, CacheEntry.is_expired, hexp]

theorem set_cache_none_override {V : Type} (m : CacheManager V) (key : String)
    (v : V) (dt : CacheDataType) (now : ℚ) :
    (m.set key v dt none now).cache =
      dictSet m.cache key
        { data := v, expires_at := now + ((m.ttl_config dt : Int) : ℚ),
          created_at := now, data_type := dt } := rfl

theorem set_cache_some_override {V : Type} (m : CacheManager V) (key : String)
    (v : V) (dt : CacheDataType) (t : Int) (now : ℚ) :
    (m.set key v dt (some t) now).cache =
      dictSet m.cache key
        { data := v, expires_at := now + (t : ℚ),
          created_at := now, data_type := dt } := rfl

theorem set_stats {V : Type} (m : CacheManager V) (key : String) (v : V)
    (dt : CacheDataType) (tov : Option Int) (now : ℚ) :
    (m.set key v dt tov now).stats = m.stats := rfl

/-! ## Concrete managers used as witnesses -/

/-- A manager freshly constructed with no TTL overrides. -/
def exMgr : CacheManager Nat := CacheManager.init Nat (fun _ => none)

/-- A live entry expiring at time 5. -/
def entryA : CacheEntry Nat :=
  { data := 1, expires_at := 5, created_at := 0, data_type := .PLAYER_DATA }

/-- A live entry expiring at time 20. -/
def entryB : CacheEntry Nat :=
  { data := 2, expires_at := 20, created_at := 0, data_type := .ROSTER_DATA }

/-- A manager holding two entries under distinct keys. -/
def exMgr2 : CacheManager Nat :=
  { cache := [("alpha", entryA), ("beta", entryB)]
    ttl_config := DEFAULT_TTL_CONFIG
    stats := ⟨0, 0, 0, 0⟩ }

/-! ## Claim theorems -/

/-- C1: immediately after `set(key, payload, category)` with no TTL
override, a `get(key, _)` performed while less than the TTL of the
category has elapsed returns exactly the payload that was set and increments hits by
one, leaving misses, evictions and invalidations unchanged. -/
theorem claim_C1_get_within_ttl_hits {V : Type} (m : CacheManager V)
    (key : String) (payload : V) (cat cat' : CacheDataType) (t t' : ℚ)
    (h : t' - t < ((m.ttl_config cat : Int) : ℚ)) :
    (((m.set key payload cat none t).get key cat' t').1 = some payload)
    ∧ ((m.set key payload cat none t).get key cat' t').2.stats.hits =
        m.stats.hits + 1
    ∧ ((m.set key payload cat none t).get key cat' t').2.stats.misses =
        m.stats.misses
    ∧ ((m.set key payload cat none t).get key cat' t').2.stats.evictions =
        m.stats.evictions
    ∧ ((m.set key payload cat none t).get key cat' t').2.stats.invalidations =
        m.stats.invalidations := by
  have hget : dictGet (m.set key payload cat none t).cache key =
      some { data := payload, expires_at := t + ((m.ttl_config cat : Int) : ℚ),
             created_at := t, data_type := cat } := by
    rw [set_cache_none_override]
    exact dictGet_dictSet_self _ _ _
  have hlive : ¬ t' > t + ((m.ttl_config cat : Int) : ℚ) := by
    intro hcon
    linarith
  have hmain := get_of_live (m.set key payload cat none t) key cat' t' _ hget hlive
  rw [hmain]
  exact ⟨rfl, rfl, rfl, rfl, rfl⟩

/-- C1 witness: on a freshly constructed manager, set "k" := 5 at time 0
and get it back at time 1, well inside the 3600-second default TTL. -/
theorem claim_C1_witness :
    ((1 : ℚ) - 0 < ((exMgr.ttl_config .PLAYER_DATA : Int) : ℚ))
    ∧ ((((exMgr.set "k" 5 .PLAYER_DATA none 0).get "k" .PLAYER_DATA 1).1 = some 5)
       ∧ ((exMgr.set "k" 5 .PLAYER_DATA none 0).get "k" .PLAYER_DATA 1).2.stats.hits =
           exMgr.stats.hits + 1
       ∧ ((exMgr.set "k" 5 .PLAYER_DATA none 0).get "k" .PLAYER_DATA 1).2.stats.misses =
           exMgr.stats.misses
       ∧ ((exMgr.set "k" 5 .PLAYER_DATA none 0).get "k" .PLAYER_DATA 1).2.stats.evictions =
           exMgr.stats.evictions
       ∧ ((exMgr.set "k" 5 .PLAYER_DATA none 0).get "k" .PLAYER_DATA 1).2.stats.invalidations =
           exMgr.stats.invalidations) :=
  ⟨by norm_num [exMgr, CacheManager.init, DEFAULT_TTL_CONFIG],
   claim_C1_get_within_ttl_hits exMgr "k" 5 .PLAYER_DATA .PLAYER_DATA 0 1
     (by norm_num [exMgr, CacheManager.init, DEFAULT_TTL_CONFIG])⟩

/-- C4: in `get_stats`, total_requests always equals hits + misses, and
hit_rate_percent is 0 when total_requests is 0 and otherwise
hits / total_requests * 100 rounded to two decimals. -/
theorem claim_C4_hit_rate (V : Type) (m : CacheManager V) :
    m.get_stats.total_requests = m.get_stats.hits + m.get_stats.misses
    ∧ m.get_stats.hit_rate_percent =
        (if m.get_stats.total_requests = 0 then 0
         else pyRound2
           ((m.get_stats.hits : ℚ) / (m.get_stats.total_requests : ℚ) * 100)) := by
  constructor
  · rfl
  · simp only [CacheManager.get_stats]
    by_cases h : m.stats.hits + m.stats.misses = 0
    · simp only [h, if_pos rfl, Nat.lt_irrefl, if_neg (lt_irrefl 0)]
      norm_num [pyRound2, roundHalfEven]
    · have h' : 0 < m.stats.hits + m.stats.misses := Nat.pos_of_ne_zero h
      simp [h, h']

/-- C6: a manager built with no overrides has the default TTLs 3600,
86400, 3600, 1800, 900; with an override mapping, overridden categories
take the override and the rest keep their defaults; and `set` with no
call-site override stores expiration = now + the configured TTL. -/
theorem claim_C6_ttl_config (V : Type) (ov : CacheDataType → Option Int)
    (key : String) (v : V) (dt : CacheDataType) (now : ℚ) :
    ((CacheManager.init V (fun _ => none)).ttl_config .PLAYER_DATA = 3600
      ∧ (CacheManager.init V (fun _ => none)).ttl_config .LEAGUE_SETTINGS = 86400
      ∧ (CacheManager.init V (fun _ => none)).ttl_config .MATCHUP_DATA = 3600
      ∧ (CacheManager.init V (fun _ => none)).ttl_config .TRENDING_PLAYERS = 1800
      ∧ (CacheManager.init V (fun _ => none)).ttl_config .ROSTER_DATA = 900)
    ∧ (CacheManager.init V ov).ttl_config dt = (ov dt).getD (DEFAULT_TTL_CONFIG dt)
    ∧ dictGet ((CacheManager.init V ov).set key v dt none now).cache key =
        some { data := v
               expires_at :=
                 now + (((CacheManager.init V ov).ttl_config dt : Int) : ℚ)
               created_at := now
               data_type := dt } := by
  refine ⟨⟨rfl, rfl, rfl, rfl, rfl⟩, rfl, ?_⟩
  rw [set_cache_none_override]
  exact dictGet_dictSet_self _ _ _

/-- C7: the result of `get` and its effect on the store and the counters
do not depend on the category argument. -/
theorem claim_C7_category_irrelevant {V : Type} (m : CacheManager V)
    (key : String) (c1 c2 : CacheDataType) (now : ℚ) :
    m.get key c1 now = m.get key c2 now := rfl

/-- C10: `set` modifies only the entry at its key: lookups of every other
key are unchanged, the stats counters are unchanged, and overwriting a
present key leaves the number of entries unchanged. -/
theorem claim_C10_set_frame {V : Type} (m : CacheManager V) (key k' : String)
    (v : V) (dt : CacheDataType) (tov : Option Int) (now : ℚ) (hne : k' ≠ key) :
    dictGet (m.set key v dt tov now).cache k' = dictGet m.cache k'
    ∧ (m.set key v dt tov now).stats = m.stats
    ∧ (∀ e, dictGet m.cache key = some e →
        (m.set key v dt tov now).cache.length = m.cache.length) := by
  refine ⟨dictGet_dictSet_ne m.cache key k' _ hne, rfl, ?_⟩
  intro e he
  exact length_dictSet_of_mem m.cache key _ e he

/-- C10 witness: overwrite the present key "alpha" at time 3 and observe
the "beta" entry, the stats and the entry count are untouched. -/
theorem claim_C10_witness :
    ("beta" ≠ "alpha")
    ∧ dictGet exMgr2.cache "alpha" = some entryA
    ∧ (dictGet (exMgr2.set "alpha" 9 .PLAYER_DATA none 3).cache "beta" =
         dictGet exMgr2.cache "beta"
       ∧ (exMgr2.set "alpha" 9 .PLAYER_DATA none 3).stats = exMgr2.stats
       ∧ (∀ e, dictGet exMgr2.cache "alpha" = some e →
           (exMgr2.set "alpha" 9 .PLAYER_DATA none 3).cache.length =
             exMgr2.cache.length)) :=
  ⟨by decide, rfl,
   claim_C10_set_frame exMgr2 "alpha" "beta" 9 .PLAYER_DATA none 3 (by decide)⟩

/-- C5: every cache method is total by construction in this model (each is
a Lean function into a plain result type, with no exception channel); a
missing key is reported by an explicit absent result: `get` returns none,
`invalidate` returns false and leaves the whole state unchanged, and `set`
accepts any TTL override, including negative values, producing an entry
with expiration now + override. -/
theorem claim_C5_total_no_errors {V : Type} (m : CacheManager V)
    (key : String) (v : V) (dt : CacheDataType) (tov : Int) (now : ℚ)
    (h : dictGet m.cache key = none) :
    (m.get key dt now).1 = none
    ∧ m.invalidate key = (false, m)
    ∧ dictGet (m.set key v dt (some tov) now).cache key =
        some { data := v, expires_at := now + (tov : ℚ), created_at := now,
               data_type := dt } := by
  refine ⟨?_, ?_, ?_⟩
  · rw [get_of_dictGet_none m key dt now h]
  · simp [CacheManager.invalidate, h]
  · rw [set_cache_some_override]
    exact dictGet_dictSet_self _ _ _

/-- C5 witness: on the fresh manager, a get and an invalidate of a missing
key report absence, and a set with the negative override -5 succeeds. -/
theorem claim_C5_witness :
    dictGet exMgr.cache "missing" = none
    ∧ ((exMgr.get "missing" .ROSTER_DATA 0).1 = none
       ∧ exMgr.invalidate "missing" = (false, exMgr)
       ∧ dictGet (exMgr.set "missing" 3 .ROSTER_DATA (some (-5)) 0).cache "missing" =
           some { data := 3, expires_at := (0 : ℚ) + ((-5 : Int) : ℚ),
                  created_at := 0, data_type := .ROSTER_DATA }) :=
  ⟨rfl, claim_C5_total_no_errors exMgr "missing" 3 .ROSTER_DATA (-5) 0 rfl⟩

/-- C9: `invalidate` on a present key removes it, increments invalidations
by one, returns true, and a subsequent `get` of that key misses; on an
absent key it returns false and leaves the whole state unchanged. -/
theorem claim_C9_invalidate {V : Type} (m : CacheManager V) (key : String)
    (dt : CacheDataType) (now : ℚ) (hnd : (m.cache.map Prod.fst).Nodup) :
    (∀ e, dictGet m.cache key = some e →
      (m.invalidate key).1 = true
      ∧ (m.invalidate key).2.cache = dictDel m.cache key
      ∧ (m.invalidate key).2.stats.invalidations = m.stats.invalidations + 1
      ∧ (m.invalidate key).2.stats.hits = m.stats.hits
      ∧ (m.invalidate key).2.stats.misses = m.stats.misses
      ∧ (m.invalidate key).2.stats.evictions = m.stats.evictions
      ∧ ((m.invalidate key).2.get key dt now).1 = none)
    ∧ (dictGet m.cache key = none → m.invalidate key = (false, m)) := by
  constructor
  · intro e he
    have hinv : m.invalidate key =
        (true,
         { m with
             cache := dictDel m.cache key
             stats := { m.stats with
                          invalidations := m.stats.invalidations + 1 } }) := by
      simp [CacheManager.invalidate, he]
    rw [hinv]
    refine ⟨rfl, rfl, rfl, rfl, rfl, rfl, ?_⟩
    have hnone : dictGet (dictDel m.cache key) key = none :=
      dictGet_dictDel_self m.cache key hnd
    rw [get_of_dictGet_none _ key dt now hnone]
  · intro he
    simp [CacheManager.invalidate, he]

/-- C9 witness: invalidating the present key "alpha" in the two-entry
manager removes it and a get at time 0 then misses. -/
theorem claim_C9_witness :
    (exMgr2.cache.map Prod.fst).Nodup
    ∧ dictGet exMgr2.cache "alpha" = some entryA
    ∧ ((∀ e, dictGet exMgr2.cache "alpha" = some e →
         (exMgr2.invalidate "alpha").1 = true
         ∧ (exMgr2.invalidate "alpha").2.cache = dictDel exMgr2.cache "alpha"
         ∧ (exMgr2.invalidate "alpha").2.stats.invalidations =
             exMgr2.stats.invalidations + 1
         ∧ (exMgr2.invalidate "alpha").2.stats.hits = exMgr2.stats.hits
         ∧ (exMgr2.invalidate "alpha").2.stats.misses = exMgr2.stats.misses
         ∧ (exMgr2.invalidate "alpha").2.stats.evictions = exMgr2.stats.evictions
         ∧ ((exMgr2.invalidate "alpha").2.get "alpha" .PLAYER_DATA 0).1 = none)
       ∧ (dictGet exMgr2.cache "alpha" = none →
           exMgr2.invalidate "alpha" = (false, exMgr2))) :=
  ⟨by decide, rfl, claim_C9_invalidate exMgr2 "alpha" .PLAYER_DATA 0 (by decide)⟩

/-- C3: `cleanup_expired` removes exactly the entries whose expiration is
at or before the current time, leaves every live entry in place, returns
the number removed and adds it to evictions, leaving the other counters
unchanged. -/
theorem claim_C3_cleanup_expired {V : Type} (m : CacheManager V) (now : ℚ)
    (hnd : (m.cache.map Prod.fst).Nodup) :
    (m.cleanup_expired now).1 =
        (m.cache.filter (fun p => decide (p.2.expires_at ≤ now))).length
    ∧ (m.cleanup_expired now).2.cache =
        m.cache.filter (fun p => decide (now < p.2.expires_at))
    ∧ (m.cleanup_expired now).2.stats.evictions =
        m.stats.evictions + (m.cleanup_expired now).1
    ∧ (m.cleanup_expired now).2.stats.hits = m.stats.hits
    ∧ (m.cleanup_expired now).2.stats.misses = m.stats.misses
    ∧ (m.cleanup_expired now).2.stats.invalidations = m.stats.invalidations := by
  refine ⟨?_, ?_, rfl, rfl, rfl, rfl⟩
  · simp [CacheManager.cleanup_expired]
  · show List.foldl dictDel m.cache
        ((m.cache.filter (fun p => decide (p.2.expires_at ≤ now))).map Prod.fst) = _
    rw [removeKeys_of_filter_eq _ _ hnd]
    refine List.filter_congr ?_
    intro p _
    by_cases hp : p.2.expires_at ≤ now
    · simp [hp, not_lt.mpr hp]
    · simp [hp, lt_of_not_le hp]

/-- C3 witness: at time 10, the two-entry manager drops exactly the entry
expiring at 5 and keeps the entry expiring at 20. -/
theorem claim_C3_witness :
    (exMgr2.cache.map Prod.fst).Nodup
    ∧ ((exMgr2.cleanup_expired 10).1 =
         (exMgr2.cache.filter (fun p => decide (p.2.expires_at ≤ 10))).length
       ∧ (exMgr2.cleanup_expired 10).2.cache =
           exMgr2.cache.filter (fun p => decide ((10 : ℚ) < p.2.expires_at))
       ∧ (exMgr2.cleanup_expired 10).2.stats.evictions =
           exMgr2.stats.evictions + (exMgr2.cleanup_expired 10).1
       ∧ (exMgr2.cleanup_expired 10).2.stats.hits = exMgr2.stats.hits
       ∧ (exMgr2.cleanup_expired 10).2.stats.misses = exMgr2.stats.misses
       ∧ (exMgr2.cleanup_expired 10).2.stats.invalidations =
           exMgr2.stats.invalidations) :=
  ⟨by decide, claim_C3_cleanup_expired exMgr2 10 (by decide)⟩

/-- C8: `invalidate_by_pattern(s)` removes exactly the keys containing `s`
as a literal substring, returns the number removed and adds it to
invalidations, leaving the other counters unchanged. -/
theorem claim_C8_invalidate_by_pattern {V : Type} (m : CacheManager V)
    (s : String) (hnd : (m.cache.map Prod.fst).Nodup) :
    (m.invalidate_by_pattern s).1 =
        (m.cache.filter (fun p => strContains p.1 s)).length
    ∧ (m.invalidate_by_pattern s).2.cache =
        m.cache.filter (fun p => !(strContains p.1 s))
    ∧ (m.invalidate_by_pattern s).2.stats.invalidations =
        m.stats.invalidations + (m.invalidate_by_pattern s).1
    ∧ (m.invalidate_by_pattern s).2.stats.hits = m.stats.hits
    ∧ (m.invalidate_by_pattern s).2.stats.misses = m.stats.misses
    ∧ (m.invalidate_by_pattern s).2.stats.evictions = m.stats.evictions := by
  refine ⟨?_, ?_, rfl, rfl, rfl, rfl⟩
  · simp [CacheManager.invalidate_by_pattern]
  · show List.foldl dictDel m.cache
        ((m.cache.filter (fun p => strContains p.1 s)).map Prod.fst) = _
    exact removeKeys_of_filter_eq _ _ hnd

/-- C8 witness: the pattern "alp" removes exactly the key "alpha" from the
two-entry manager and leaves "beta". -/
theorem claim_C8_witness :
    (exMgr2.cache.map Prod.fst).Nodup
    ∧ ((exMgr2.invalidate_by_pattern "alp").1 =
         (exMgr2.cache.filter (fun p => strContains p.1 "alp")).length
       ∧ (exMgr2.invalidate_by_pattern "alp").2.cache =
           exMgr2.cache.filter (fun p => !(strContains p.1 "alp"))
       ∧ (exMgr2.invalidate_by_pattern "alp").2.stats.invalidations =
           exMgr2.stats.invalidations + (exMgr2.invalidate_by_pattern "alp").1
       ∧ (exMgr2.invalidate_by_pattern "alp").2.stats.hits = exMgr2.stats.hits
       ∧ (exMgr2.invalidate_by_pattern "alp").2.stats.misses = exMgr2.stats.misses
       ∧ (exMgr2.invalidate_by_pattern "alp").2.stats.evictions =
           exMgr2.stats.evictions) :=
  ⟨by decide, claim_C8_invalidate_by_pattern exMgr2 "alp" (by decide)⟩

/-- C2 counterexample: after `set("k", 7, PLAYER_DATA, ttl_override=0)` at
time 0, a get of "k" at the very same timestamp 0 returns the payload and
records a hit, not an absent result: `is_expired` compares with a strict
inequality, so an entry whose expiration equals the current time is still
live. This refutes "any subsequent get(key, _) returns absent". -/
theorem claim_C2_counterexample :
    ((exMgr.set "k" 7 .PLAYER_DATA (some 0) 0).get "k" .PLAYER_DATA 0).1 = some 7
    ∧ ((exMgr.set "k" 7 .PLAYER_DATA (some 0) 0).get "k" .PLAYER_DATA 0).2.stats.evictions = 0 := by
  have hget : dictGet (exMgr.set "k" 7 .PLAYER_DATA (some 0) 0).cache "k" =
      some { data := 7, expires_at := (0 : ℚ) + ((0 : Int) : ℚ),
             created_at := 0, data_type := .PLAYER_DATA } := by
    rw [set_cache_some_override]
    exact dictGet_dictSet_self _ _ _
  have hlive : ¬ (0 : ℚ) > (0 : ℚ) + ((0 : Int) : ℚ) := by norm_num
  have hmain := get_of_live (exMgr.set "k" 7 .PLAYER_DATA (some 0) 0)
    "k" .PLAYER_DATA 0 _ hget hlive
  rw [hmain]
  exact ⟨rfl, rfl⟩

/-- C2 (amended): after `set(key, v, cat, ttl_override=0)` at time t, a
get of the key at any strictly later timestamp returns absent; the first
such get increments both evictions and misses by one (and not hits or
invalidations), and a later get of the same key, at any timestamp and with
no intervening set, increments only misses and leaves the store unchanged,
never counting a second eviction. -/
theorem claim_C2_zero_ttl_expiry {V : Type} (m : CacheManager V)
    (key : String) (v : V) (cat c1 c2 : CacheDataType) (t t1 t2 : ℚ)
    (hnd : (m.cache.map Prod.fst).Nodup) (h1 : t < t1) :
    ((m.set key v cat (some 0) t).get key c1 t1).1 = none
    ∧ ((m.set key v cat (some 0) t).get key c1 t1).2.stats.evictions =
        m.stats.evictions + 1
    ∧ ((m.set key v cat (some 0) t).get key c1 t1).2.stats.misses =
        m.stats.misses + 1
    ∧ ((m.set key v cat (some 0) t).get key c1 t1).2.stats.hits = m.stats.hits
    ∧ ((m.set key v cat (some 0) t).get key c1 t1).2.stats.invalidations =
        m.stats.invalidations
    ∧ (((m.set key v cat (some 0) t).get key c1 t1).2.get key c2 t2).1 = none
    ∧ (((m.set key v cat (some 0) t).get key c1 t1).2.get key c2 t2).2.stats.evictions =
        ((m.set key v cat (some 0) t).get key c1 t1).2.stats.evictions
    ∧ (((m.set key v cat (some 0) t).get key c1 t1).2.get key c2 t2).2.stats.misses =
        ((m.set key v cat (some 0) t).get key c1 t1).2.stats.misses + 1
    ∧ (((m.set key v cat (some 0) t).get key c1 t1).2.get key c2 t2).2.cache =
        ((m.set key v cat (some 0) t).get key c1 t1).2.cache := by
  have hget : dictGet (m.set key v cat (some 0) t).cache key =
      some { data := v, expires_at := t + ((0 : Int) : ℚ),
             created_at := t, data_type := cat } := by
    rw [set_cache_some_override]
    exact dictGet_dictSet_self _ _ _
  have hexp : t1 > t + ((0 : Int) : ℚ) := by
    push_cast
    linarith
  have hfirst := get_of_expired (m.set key v cat (some 0) t) key c1 t1 _ hget hexp
  have hnd' : (((m.set key v cat (some 0) t).cache).map Prod.fst).Nodup := by
    rw [set_cache_some_override]
    exact keys_dictSet_nodup m.cache key _ hnd
  have hnone : dictGet (dictDel (m.set key v cat (some 0) t).cache key) key = none :=
    dictGet_dictDel_self _ key hnd'
  rw [hfirst]
  have hsecond := get_of_dictGet_none
    { (m.set key v cat (some 0) t) with
        cache := dictDel (m.set key v cat (some 0) t).cache key
        stats := { (m.set key v cat (some 0) t).stats with
                     evictions := (m.set key v cat (some 0) t).stats.evictions + 1
                     misses := (m.set key v cat (some 0) t).stats.misses + 1 } }
    key c2 t2 hnone
  rw [hsecond]
  exact ⟨rfl, rfl, rfl, rfl, rfl, rfl, rfl, rfl, rfl⟩

/-- C2 witness for the amended claim: set "k" with ttl_override = 0 at
time 0 on the fresh manager, get at time 1 (evicted + missed), get again
at time 2 (plain miss). -/
theorem claim_C2_witness :
    (exMgr.cache.map Prod.fst).Nodup
    ∧ ((0 : ℚ) < 1)
    ∧ (((exMgr.set "k" 7 .PLAYER_DATA (some 0) 0).get "k" .PLAYER_DATA 1).1 = none
       ∧ ((exMgr.set "k" 7 .PLAYER_DATA (some 0) 0).get "k" .PLAYER_DATA 1).2.stats.evictions =
           exMgr.stats.evictions + 1
       ∧ ((exMgr.set "k" 7 .PLAYER_DATA (some 0) 0).get "k" .PLAYER_DATA 1).2.stats.misses =
           exMgr.stats.misses + 1
       ∧ ((exMgr.set "k" 7 .PLAYER_DATA (some 0) 0).get "k" .PLAYER_DATA 1).2.stats.hits =
           exMgr.stats.hits
       ∧ ((exMgr.set "k" 7 .PLAYER_DATA (some 0) 0).get "k" .PLAYER_DATA 1).2.stats.invalidations =
           exMgr.stats.invalidations
       ∧ (((exMgr.set "k" 7 .PLAYER_DATA (some 0) 0).get "k" .PLAYER_DATA 1).2.get "k" .PLAYER_DATA 2).1 = none
       ∧ (((exMgr.set "k" 7 .PLAYER_DATA (some 0) 0).get "k" .PLAYER_DATA 1).2.get "k" .PLAYER_DATA 2).2.stats.evictions =
           ((exMgr.set "k" 7 .PLAYER_DATA (some 0) 0).get "k" .PLAYER_DATA 1).2.stats.evictions
       ∧ (((exMgr.set "k" 7 .PLAYER_DATA (some 0) 0).get "k" .PLAYER_DATA 1).2.get "k" .PLAYER_DATA 2).2.stats.misses =
           ((exMgr.set "k" 7 .PLAYER_DATA (some 0) 0).get "k" .PLAYER_DATA 1).2.stats.misses + 1
       ∧ (((exMgr.set "k" 7 .PLAYER_DATA (some 0) 0).get "k" .PLAYER_DATA 1).2.get "k" .PLAYER_DATA 2).2.cache =
           ((exMgr.set "k" 7 .PLAYER_DATA (some 0) 0).get "k" .PLAYER_DATA 1).2.cache) :=
  ⟨by decide, by decide,
   claim_C2_zero_ttl_expiry exMgr "k" 7 .PLAYER_DATA .PLAYER_DATA .PLAYER_DATA
     0 1 2 (by decide) (by decide)⟩

end SleeperCache
